import Mathlib

/-
Verification development for the-drop (src/the_drop.py).

The response-parsing and template-assembly pipeline of the program is
shallowly embedded over `List Char` (Python `str` values are modelled as
lists of characters).  Python string primitives (`strip`, `split`,
`replace`, `startswith`, `in`) are given as executable Lean functions with
the same semantics, restricted to the ASCII whitespace set that the claims
exercise.  Regular-expression matching (`re.match`, `re.search`, `re.sub`)
is embedded by a small backtracking engine over the token shapes actually
used by the source (literal characters, case-insensitive literals,
greedy `\s*`, lazy `(.+?)` and greedy `(.+)` groups).
-/

/-- Strings are modelled as lists of characters. -/
abbrev LC := List Char

/-- Python `str.strip` whitespace set (ASCII part): space, tab, newline,
carriage return, vertical tab, form feed. -/
def isSpc (c : Char) : Bool :=
  c == ' ' || c == '\t' || c == '\n' || c == '\r' || c == '\x0b' || c == '\x0c'

/-- Left strip: drop leading whitespace. -/
def stripL (l : LC) : LC := l.dropWhile isSpc

/-- Right strip: drop trailing whitespace. -/
def stripR (l : LC) : LC := (l.reverse.dropWhile isSpc).reverse

/-- Python `str.strip`: drop whitespace at both ends. -/
def strip (l : LC) : LC := stripL (stripR l)

/-- Python `str.startswith` on strings. -/
def isPref : LC → LC → Bool
  | [], _ => true
  | _ :: _, [] => false
  | p :: ps, c :: cs => p == c && isPref ps cs

/-- Python `pat in s` substring test. -/
def subB (pat : LC) : LC → Bool
  | [] => pat.isEmpty
  | c :: cs => isPref pat (c :: cs) || subB pat cs

/-- Python `s.split(chr(10))`: split a string at every newline character. -/
def splitNl : LC → List LC
  | [] => [[]]
  | c :: cs =>
    if c = '\n' then [] :: splitNl cs
    else
      match splitNl cs with
      | [] => [[c]]
      | h :: t => (c :: h) :: t

/-- Python `"\n".join(lines)`. -/
def joinNl : List LC → LC
  | [] => []
  | [x] => x
  | x :: y :: t => x ++ '\n' :: joinNl (y :: t)

/-- Fuel-indexed worker for `replaceAll`; the fuel is the input length, and
each step consumes at least one character. -/
def replGo (pat repl : LC) : Nat → LC → LC
  | 0, s => s
  | _ + 1, [] => []
  | f + 1, c :: cs =>
    if pat.isEmpty then c :: cs
    else if isPref pat (c :: cs) then
      repl ++ replGo pat repl f (List.drop pat.length (c :: cs))
    else c :: replGo pat repl f cs

/-- Python `s.replace(pat, repl)`: replace every non-overlapping occurrence
of `pat`, scanning left to right.  (The source never calls `replace` with an
empty pattern; for an empty pattern this returns `s` unchanged.) -/
def replaceAll (s pat repl : LC) : LC := replGo pat repl s.length s

/-- Fuel-indexed worker for `splitOnStr`, structurally parallel to
`replGo`. -/
def splitGo (pat : LC) : Nat → LC → List LC
  | 0, s => [s]
  | _ + 1, [] => [[]]
  | f + 1, c :: cs =>
    if pat.isEmpty then [c :: cs]
    else if isPref pat (c :: cs) then
      [] :: splitGo pat f (List.drop pat.length (c :: cs))
    else
      match splitGo pat f cs with
      | [] => [[c]]
      | h :: t => (c :: h) :: t

/-- Python `s.split(pat)` for a non-empty separator string. -/
def splitOnStr (s pat : LC) : List LC := splitGo pat s.length s

/-- Join a list of chunks with a separator string. -/
def joinSep (sep : LC) : List LC → LC
  | [] => []
  | [x] => x
  | x :: y :: t => x ++ sep ++ joinSep sep (y :: t)

/-- ASCII-uppercase a string (Python `str.upper` restricted to ASCII). -/
def asciiUpper (l : LC) : LC := l.map Char.toUpper

/-- ASCII-lowercase a string (Python `str.lower` restricted to ASCII). -/
def asciiLower (l : LC) : LC := l.map Char.toLower

/-! ## Response section parser (`parse_claude_response`, lines 437-456)

`SectionMap` models the Python dict with insertion-order semantics: keys
appear in first-insertion order, and inserting an existing key updates the
value in place. -/
/-- The section map produced by the parser: an insertion-ordered
association list modelling a Python dict. -/
abbrev SMap := List (LC × LC)

/-- Python dict lookup `m.get(key)`: first (unique) matching key. -/
def lookupA : SMap → LC → Option LC
  | [], _ => none
  | (k, v) :: t, key => if k = key then some v else lookupA t key

/-- Python dict lookup with default: `m.get(key, d)`. -/
def lookupD (m : SMap) (key d : LC) : LC :=
  match lookupA m key with
  | some v => v
  | none => d

/-- Python dict assignment `m[k] = v`: update in place if the key exists,
otherwise append. -/
def insertS : SMap → LC → LC → SMap
  | [], k, v => [(k, v)]
  | (k1, v1) :: t, k, v =>
    if k1 = k then (k1, v) :: t else (k1, v1) :: insertS t k v

/-- A line that starts a new section: `line.startswith("## ")`. -/
def isHeading (l : LC) : Bool := isPref ("## ".data) l

/-- Close the pending section, if any: `sections[current_section] =
"\n".join(current_content).strip()`. -/
def closeSection (cur : Option LC) (content : List LC) (m : SMap) : SMap :=
  match cur with
  | none => m
  | some k => insertS m k (strip (joinNl content))

/-- The line-scanning loop of `parse_claude_response`. -/
def parseLoop : List LC → Option LC → List LC → SMap → SMap
  | [], cur, content, m => closeSection cur content m
  | l :: ls, cur, content, m =>
    if isHeading l then
      parseLoop ls (some (strip (l.drop 3))) [] (closeSection cur content m)
    else
      parseLoop ls cur (content ++ [l]) m

/-- `parse_claude_response` (the_drop.py lines 437-456): split the response
at newlines, start a section at each `## ` line (name stripped), accumulate
other lines, store each closed section stripped. -/
def parseClaudeResponse (s : LC) : SMap := parseLoop (splitNl s) none [] []

/-! ## Concatenations used by claim C1 -/
/-- The concatenation named by claim C1: `"## " + key + "\n" + value` per
entry, with no separator between entries. -/
def sectionBlobNoSep : SMap → LC
  | [] => []
  | (k, v) :: t => "## ".data ++ k ++ '\n' :: (v ++ sectionBlobNoSep t)

/-- The repaired concatenation: `"## " + key + "\n" + value + "\n"` per
entry, so each value is terminated before the next heading line. -/
def sectionBlobSep : SMap → LC
  | [] => []
  | (k, v) :: t => "## ".data ++ k ++ '\n' :: (v ++ '\n' :: sectionBlobSep t)

/-- The line sequence produced by splitting `sectionBlobSep m` at newlines. -/
def lineList : SMap → List LC
  | [] => [[]]
  | (k, v) :: t => ("## ".data ++ k) :: (splitNl v ++ lineList t)

/-- Invariant of parser outputs: keys are distinct, keys and values are
strip-fixed, and keys contain no newline. -/
def InvM (m : SMap) : Prop :=
  (m.map Prod.fst).Nodup ∧
    ∀ p ∈ m, strip p.1 = p.1 ∧ ('\n' : Char) ∉ p.1 ∧ strip p.2 = p.2

/-! ## A small backtracking regex engine

The source uses `re` with patterns built from literal characters, `\s*`,
lazy groups `(.+?)`, a lazy non-capturing `.+?` and greedy groups `(.+)`
(`.` never matches a newline).  `matchToks` is an anchored backtracking
matcher (`re.match`): lazy quantifiers try the shortest candidate first,
greedy ones the longest, exactly as the Python engine does.  It returns the
captured groups in order together with the unconsumed remainder. -/
inductive Tok where
  | lit (c : Char)
  | litCI (c : Char)
  | ws
  | lazyCap
  | lazyAnon
  | greedyCap
deriving DecidableEq

def matchToks : List Tok → LC → Option (List LC × LC)
  | [], s => some ([], s)
  | Tok.lit c :: ts, s =>
    match s with
    | [] => none
    | x :: xs => if x = c then matchToks ts xs else none
  | Tok.litCI c :: ts, s =>
    match s with
    | [] => none
    | x :: xs => if x.toLower = c then matchToks ts xs else none
  | Tok.ws :: ts, s =>
    (List.range ((s.takeWhile isSpc).length + 1)).reverse.findSome?
      (fun k => matchToks ts (s.drop k))
  | Tok.lazyCap :: ts, s =>
    ((List.range ((s.takeWhile (fun c => !(c == '\n'))).length)).map (· + 1)).findSome?
      (fun k => (matchToks ts (s.drop k)).map (fun pr => (s.take k :: pr.1, pr.2)))
  | Tok.lazyAnon :: ts, s =>
    ((List.range ((s.takeWhile (fun c => !(c == '\n'))).length)).map (· + 1)).findSome?
      (fun k => matchToks ts (s.drop k))
  | Tok.greedyCap :: ts, s =>
    ((List.range ((s.takeWhile (fun c => !(c == '\n'))).length)).map (· + 1)).reverse.findSome?
      (fun k => (matchToks ts (s.drop k)).map (fun pr => (s.take k :: pr.1, pr.2)))

/-- `re.search`: try an anchored match at each start position, left to
right, and return the captures of the first match. -/
def searchToks (toks : List Tok) : LC → Option (List LC)
  | [] =>
    match matchToks toks [] with
    | some (caps, _) => some caps
    | none => none
  | c :: cs =>
    match matchToks toks (c :: cs) with
    | some (caps, _) => some caps
    | none => searchToks toks cs

/-- Fuel-indexed worker for `subAll` (`re.sub`): at each position, replace
a match and continue after it, otherwise copy one character. -/
def subGo (toks : List Tok) (repl : List LC → LC) : Nat → LC → LC
  | 0, s => s
  | f + 1, s =>
    match matchToks toks s with
    | some (caps, rest) =>
      if rest.length < s.length then repl caps ++ subGo toks repl f rest
      else
        match s with
        | [] => []
        | c :: cs => c :: subGo toks repl f cs
    | none =>
      match s with
      | [] => []
      | c :: cs => c :: subGo toks repl f cs

/-- `re.sub(pattern, repl, s)` for the token patterns of the source. -/
def subAll (toks : List Tok) (repl : List LC → LC) (s : LC) : LC :=
  subGo toks repl s.length s

/-! ## Base substitutions shared by the formatters -/
/-- Pattern `\*\*(.+?)\*\*`. -/
def boldToks : List Tok :=
  [Tok.lit '*', Tok.lit '*', Tok.lazyCap, Tok.lit '*', Tok.lit '*']

/-- Pattern `\[(.+?)\]\((.+?)\)` (two captures, used by the substitutions). -/
def linkToks : List Tok :=
  [Tok.lit '[', Tok.lazyCap, Tok.lit ']', Tok.lit '(', Tok.lazyCap, Tok.lit ')']

/-- Pattern `\[.+?\]\((.+?)\)` (one capture, used by `re.search` in
`_format_reads`). -/
def linkSearchToks : List Tok :=
  [Tok.lit '[', Tok.lazyAnon, Tok.lit ']', Tok.lit '(', Tok.lazyCap, Tok.lit ')']

/-- Replacement `<strong style="color: #FFFFFF;">\1</strong>`. -/
def strongRepl (caps : List LC) : LC :=
  "<strong style=\"color: #FFFFFF;\">".data ++ caps.getD 0 [] ++ "</strong>".data

/-- Replacement `<a href="\2" style="color: C;">\1</a>` with the styling
color `C` used at the call site. -/
def linkRepl (color : LC) (caps : List LC) : LC :=
  "<a href=\"".data ++ caps.getD 1 [] ++ "\" style=\"color: ".data ++ color ++
    ";\">".data ++ caps.getD 0 [] ++ "</a>".data

/-- Replacement `\1`: reduce a markdown link to its text. -/
def descLinkRepl (caps : List LC) : LC := caps.getD 0 []

/-- The `**X**` base substitution. -/
def convertBold (l : LC) : LC := subAll boldToks strongRepl l

/-- The `[label](url)` base substitution with a given link color. -/
def convertLinks (color : LC) (l : LC) : LC := subAll linkToks (linkRepl color) l

/-! ## Section formatters -/
/-- Bullet-marker stripping shared by `_bullets_to_html` and
`_format_reads`: drop a leading `"- "`, `"* "` or `"• "`. -/
def markerStrip (l : LC) : LC :=
  if isPref ("- ".data) l || isPref ("* ".data) l then l.drop 2
  else if isPref ("• ".data) l then l.drop 2
  else l

/-- The list-item fragment of `_bullets_to_html` (lines 477-480). -/
def bulletItemHtml (accent line : LC) : LC :=
  "<li style=\"margin-bottom: 12px; padding-left: 16px; position: relative; color: #E4E4E7; font-size: 15px; line-height: 1.6;\">\n                <span style=\"position: absolute; left: 0; color: ".data ++
    accent ++ ";\">›</span>\n                ".data ++ line ++
    "\n              </li>".data

/-- One loop iteration of `_bullets_to_html`: strip the line, strip a
bullet marker, drop the line if it is then empty, otherwise apply the base
substitutions and wrap in a list item. -/
def bulletLineHtml (accent : LC) (l : LC) : Option LC :=
  let l1 := markerStrip (strip l)
  if l1.isEmpty then none
  else some (bulletItemHtml accent (convertLinks ("#818CF8".data) (convertBold l1)))

/-- `_bullets_to_html` (lines 458-482). -/
def bulletsToHtml (content accent : LC) : LC :=
  joinNl ((splitNl (strip content)).filterMap (bulletLineHtml accent))

/-- `_format_paragraph` (lines 484-491). -/
def formatParagraph (content : LC) : LC :=
  convertLinks ("#818CF8".data) (convertBold (strip content))

/-- Split at the first occurrence of a (non-empty) literal, Python
`s.split(pat, 1)`; when the literal does not occur the whole string is the
first component (the source only calls this after an `in` test). -/
def splitFirstStr (pat : LC) : LC → LC × LC
  | [] => ([], [])
  | c :: cs =>
    if isPref pat (c :: cs) then ([], List.drop pat.length (c :: cs))
    else
      let pr := splitFirstStr pat cs
      (c :: pr.1, pr.2)

/-- `_format_scouting_picks` (lines 493-510). -/
def formatScoutingPicks (content : LC) : LC :=
  let c := convertLinks ("#A5B4FC".data) (convertBold (strip content))
  if subB ("Why it matters:".data) c then
    let pr := splitFirstStr ("Why it matters:".data) c
    "<p style=\"margin: 0 0 8px 0; font-size: 15px; color: #E4E4E7; line-height: 1.6;\">\n                ".data ++
      strip pr.1 ++
      "\n              </p>\n              <p style=\"margin: 0; font-size: 14px; color: #A5B4FC; line-height: 1.5;\">\n                Why it matters: ".data ++
      strip pr.2 ++ "\n              </p>".data
  else
    "<p style=\"margin: 0; font-size: 15px; color: #E4E4E7; line-height: 1.6;\">".data ++
      c ++ "</p>".data

/-! ## The reads formatter (`_format_reads`, lines 512-599) -/
/-- The paywall badge fragment (line 533). -/
def paywallBadge : LC :=
  "<span style=\"display: inline-block; background-color: #3F3F46; color: #A1A1AA; font-size: 11px; padding: 2px 6px; border-radius: 4px; margin-left: 6px;\">Paywall</span>".data

/-- Paywall handling (lines 530-534): if the line contains `[Paywall]` or
`[paywall]` (exactly these two casings), remove every occurrence of both,
strip the result, and attach the badge; otherwise keep the line and no
badge.  Returns `(processed line, paywall tag)`. -/
def extractPaywall (l : LC) : LC × LC :=
  if subB ("[Paywall]".data) l || subB ("[paywall]".data) l then
    (strip (replaceAll (replaceAll l ("[Paywall]".data) []) ("[paywall]".data) []),
      paywallBadge)
  else (l, [])

/-- Pattern 1: `\*\*\[(.+?)\]\((.+?)\)\*\*\s*·\s*(.+?)\s*·\s*(.+)`. -/
def pat1Toks : List Tok :=
  [Tok.lit '*', Tok.lit '*', Tok.lit '[', Tok.lazyCap, Tok.lit ']',
   Tok.lit '(', Tok.lazyCap, Tok.lit ')', Tok.lit '*', Tok.lit '*',
   Tok.ws, Tok.lit '·', Tok.ws, Tok.lazyCap, Tok.ws, Tok.lit '·', Tok.ws,
   Tok.greedyCap]

/-- Pattern 2: `\*\*\[(.+?)\]\((.+?)\)\*\*\s*·\s*(.+)`. -/
def pat2Toks : List Tok :=
  [Tok.lit '*', Tok.lit '*', Tok.lit '[', Tok.lazyCap, Tok.lit ']',
   Tok.lit '(', Tok.lazyCap, Tok.lit ')', Tok.lit '*', Tok.lit '*',
   Tok.ws, Tok.lit '·', Tok.ws, Tok.greedyCap]

/-- Pattern 3: `\*\*(.+?)\*\*\s*·\s*(.+?)\s*·\s*(.+)`. -/
def pat3Toks : List Tok :=
  [Tok.lit '*', Tok.lit '*', Tok.lazyCap, Tok.lit '*', Tok.lit '*',
   Tok.ws, Tok.lit '·', Tok.ws, Tok.lazyCap, Tok.ws, Tok.lit '·', Tok.ws,
   Tok.greedyCap]

/-- Pattern 4: `\[(.+?)\]\((.+?)\)\s*·\s*(.+?)\s*·\s*(.+)`. -/
def pat4Toks : List Tok :=
  [Tok.lit '[', Tok.lazyCap, Tok.lit ']', Tok.lit '(', Tok.lazyCap,
   Tok.lit ')', Tok.ws, Tok.lit '·', Tok.ws, Tok.lazyCap, Tok.ws,
   Tok.lit '·', Tok.ws, Tok.greedyCap]

/-- The `(title, link_url, source, description)` record recovered from one
reads line. -/
structure ReadFields where
  title : LC
  linkUrl : LC
  source : LC
  descr : LC
deriving DecidableEq

/-- The pattern-matching stage of `_format_reads` (lines 536-589): try the
four patterns in order, fall back to the whole line with a best-effort link
search, then reduce any leftover markdown link in the description to its
text. -/
def parseReadFields (l : LC) : ReadFields :=
  let f : ReadFields :=
    match matchToks pat1Toks l with
    | some (caps, _) =>
      ⟨caps.getD 0 [], caps.getD 1 [], strip (caps.getD 2 []),
        strip (caps.getD 3 [])⟩
    | none =>
      match matchToks pat2Toks l with
      | some (caps, _) =>
        let rest := strip (caps.getD 2 [])
        if subB ("·".data) rest then
          let parts := splitFirstStr ("·".data) rest
          ⟨caps.getD 0 [], caps.getD 1 [], strip parts.1, strip parts.2⟩
        else ⟨caps.getD 0 [], caps.getD 1 [], rest, []⟩
      | none =>
        match matchToks pat3Toks l with
        | some (caps, _) =>
          let lk :=
            match searchToks linkSearchToks l with
            | some caps2 => caps2.getD 0 []
            | none => "#".data
          ⟨caps.getD 0 [], lk, strip (caps.getD 1 []), strip (caps.getD 2 [])⟩
        | none =>
          match matchToks pat4Toks l with
          | some (caps, _) =>
            ⟨caps.getD 0 [], caps.getD 1 [], strip (caps.getD 2 []),
              strip (caps.getD 3 [])⟩
          | none =>
            let lk :=
              match searchToks linkSearchToks l with
              | some caps2 => caps2.getD 0 []
              | none => "#".data
            ⟨l, lk, [], []⟩
  ⟨f.title, f.linkUrl, f.source, subAll linkToks descLinkRepl f.descr⟩

/-- The list-item fragment of `_format_reads` (lines 591-597). -/
def readItemHtml (accent : LC) (f : ReadFields) (payTag : LC) : LC :=
  "<li style=\"margin-bottom: 16px; padding-left: 16px; position: relative;\">\n                <span style=\"position: absolute; left: 0; color: ".data ++
    accent ++ ";\">›</span>\n                <a href=\"".data ++ f.linkUrl ++
    "\" style=\"color: #FFFFFF; font-size: 15px; font-weight: 600; text-decoration: none;\">".data ++
    f.title ++
    "</a>\n                <span style=\"color: #71717A; font-size: 14px;\"> · ".data ++
    f.source ++ "</span>\n                ".data ++ payTag ++
    "\n                <p style=\"margin: 6px 0 0 0; font-size: 14px; color: #A1A1AA; line-height: 1.5;\">".data ++
    f.descr ++ "</p>\n              </li>".data

/-- One loop iteration of `_format_reads`. -/
def formatReadsLine (accent : LC) (l : LC) : Option LC :=
  let l1 := markerStrip (strip l)
  if l1.isEmpty then none
  else
    let pr := extractPaywall l1
    some (readItemHtml accent (parseReadFields pr.1) pr.2)

/-- `_format_reads` (lines 512-599). -/
def formatReads (content accent : LC) : LC :=
  joinNl ((splitNl (strip content)).filterMap (formatReadsLine accent))

/-! ## Template assembler (`assemble_html`, lines 601-667)

The template file, the current date and the header image URL are inputs of
the embedding (the source reads them from disk, `datetime.now()` and the
environment).  Literal braces in strings are written as escapes. -/
/-- `NYC_CALLOUT_TEMPLATE` (lines 48-61). -/
def nycCalloutTemplate : LC :=
  "<tr>\n    <td style=\"padding: 0 0 20px 0;\">\n      <table role=\"presentation\" cellspacing=\"0\" cellpadding=\"0\" border=\"0\" width=\"100%\" class=\"section-card\" style=\"background: linear-gradient(135deg, #134E4A 0%, #0F766E 100%); border-radius: 12px; border: 1px solid #14B8A6;\">\n        <tr>\n          <td class=\"content-padding\" style=\"padding: 20px 28px;\">\n            <p style=\"margin: 0 0 6px 0; font-size: 11px; font-weight: 600; color: #5EEAD4; text-transform: uppercase; letter-spacing: 0.12em;\">New Opening</p>\n            <p style=\"margin: 0; font-size: 15px; color: #F0FDFA; line-height: 1.6;\">\n              \x7bcontent\x7d\n            </p>\n          </td>\n        </tr>\n      </table>\n    </td>\n  </tr>".data

/-- The four formatter kinds dispatched by `assemble_html`. -/
inductive FmtKind where
  | bullets
  | paragraph
  | scouting
  | reads
deriving DecidableEq

/-- One entry of `section_mappings`: section key, placeholder token, accent
color (absent for paragraph and scouting entries) and formatter kind. -/
structure SectionMapping where
  name : LC
  placeholder : LC
  accent : Option LC
  kind : FmtKind

/-- `section_mappings` (lines 622-639), in the insertion order of the
Python dict literal. -/
def sectionMappings : List SectionMapping :=
  [⟨"GOOD_MORNING".data, "\x7b\x7bGOOD_MORNING_CONTENT\x7d\x7d".data, none, FmtKind.paragraph⟩,
   ⟨"BEFORE_THE_BELL_MARKETS".data, "\x7b\x7bBEFORE_THE_BELL_MARKETS\x7d\x7d".data, some ("#34D399".data), FmtKind.bullets⟩,
   ⟨"BEFORE_THE_BELL_EARNINGS_LAST".data, "\x7b\x7bBEFORE_THE_BELL_EARNINGS_LAST\x7d\x7d".data, some ("#34D399".data), FmtKind.bullets⟩,
   ⟨"BEFORE_THE_BELL_EARNINGS_UPCOMING".data, "\x7b\x7bBEFORE_THE_BELL_EARNINGS_UPCOMING\x7d\x7d".data, none, FmtKind.paragraph⟩,
   ⟨"HEADLINE_ROUNDUP".data, "\x7b\x7bHEADLINE_ROUNDUP\x7d\x7d".data, some ("#F472B6".data), FmtKind.bullets⟩,
   ⟨"PHARMA_HEALTH_INTEL".data, "\x7b\x7bPHARMA_HEALTH_INTEL\x7d\x7d".data, some ("#22D3EE".data), FmtKind.bullets⟩,
   ⟨"TECH_AI".data, "\x7b\x7bTECH_AI\x7d\x7d".data, some ("#FBBF24".data), FmtKind.bullets⟩,
   ⟨"DEAL_FLOW_MA".data, "\x7b\x7bDEAL_FLOW_MA\x7d\x7d".data, some ("#FB923C".data), FmtKind.bullets⟩,
   ⟨"DEAL_FLOW_VENTURE".data, "\x7b\x7bDEAL_FLOW_VENTURE\x7d\x7d".data, some ("#FB923C".data), FmtKind.bullets⟩,
   ⟨"DEAL_FLOW_SCOUTING".data, "\x7b\x7bDEAL_FLOW_SCOUTING\x7d\x7d".data, none, FmtKind.scouting⟩,
   ⟨"NYC_EVENTS".data, "\x7b\x7bNYC_EVENTS\x7d\x7d".data, some ("#4ADE80".data), FmtKind.bullets⟩,
   ⟨"NYC_RESTAURANT".data, "\x7b\x7bNYC_RESTAURANT\x7d\x7d".data, none, FmtKind.paragraph⟩,
   ⟨"CULTURE_SPORTS".data, "\x7b\x7bCULTURE_SPORTS\x7d\x7d".data, some ("#E879F9".data), FmtKind.bullets⟩,
   ⟨"CULTURE_MEME".data, "\x7b\x7bCULTURE_MEME\x7d\x7d".data, none, FmtKind.paragraph⟩,
   ⟨"CULTURE_INTERNET".data, "\x7b\x7bCULTURE_INTERNET\x7d\x7d".data, some ("#E879F9".data), FmtKind.bullets⟩,
   ⟨"READS_OF_THE_WEEK".data, "\x7b\x7bREADS_OF_THE_WEEK\x7d\x7d".data, some ("#60A5FA".data), FmtKind.reads⟩]

/-- Dispatch on the formatter kind (lines 641-654).  Entries that carry an
accent color always provide one; the default is never read by the source. -/
def applyFmt (kind : FmtKind) (accent : Option LC) (content : LC) : LC :=
  match kind with
  | FmtKind.bullets => bulletsToHtml content (accent.getD ("#818CF8".data))
  | FmtKind.paragraph => formatParagraph content
  | FmtKind.scouting => formatScoutingPicks content
  | FmtKind.reads => formatReads content (accent.getD ("#60A5FA".data))

/-- NYC callout handling (lines 658-664): substitute the fixed fragment
with the paragraph-formatted content unless the section is missing, empty,
or its stripped value uppercases to `NONE`. -/
def nycCalloutHtml (sections : SMap) : LC :=
  let v := lookupD sections ("NYC_CALLOUT".data) []
  if v ≠ [] ∧ asciiUpper (strip v) ≠ "NONE".data then
    replaceAll nycCalloutTemplate ("\x7bcontent\x7d".data) (formatParagraph v)
  else []

/-- `assemble_html` (lines 601-667): date, header-image, market-image and
per-section substitutions, then the callout substitution; every
substitution is a Python `str.replace`. -/
def assembleHtml (date headerBg : LC) (marketImageUrl : Option LC)
    (sections : SMap) (template : LC) : LC :=
  let t1 := replaceAll template ("\x7b\x7bDATE\x7d\x7d".data) date
  let t2 := replaceAll t1 ("\x7b\x7bHEADER_BG_IMAGE\x7d\x7d".data) headerBg
  let t3 :=
    match marketImageUrl with
    | some u => replaceAll t2 ("\x7b\x7bEXEC_SUM_MARKET_IMAGE_URL\x7d\x7d".data) u
    | none => replaceAll t2 ("\x7b\x7bEXEC_SUM_MARKET_IMAGE_URL\x7d\x7d".data) []
  let t4 := sectionMappings.foldl
    (fun acc e =>
      let content := lookupD sections e.name []
      let htmlContent := if content = [] then [] else applyFmt e.kind e.accent content
      replaceAll acc e.placeholder htmlContent)
    t3
  replaceAll t4 ("\x7b\x7bNYC_CALLOUT_SECTION\x7d\x7d".data) (nycCalloutHtml sections)

/-! ## Email normalizer (`_get_email_body` lines 227-242, `_parse_email`
lines 197-225)

A raw message payload is a MIME tree: each node has a `mimeType`, an
optional body payload and a list of sub-parts.  The base64 transfer
decoding (`base64.urlsafe_b64decode(...).decode("utf-8")`) is modelled as
the identity on the already-decoded payload string, since no claim
concerns the transfer encoding; the truthiness test
`payload["body"].get("data")` becomes a non-empty check on that string.
The traversal is written with an explicit fuel argument (structural
recursion over the nested tree), instantiated with `sizeOf` of the tree,
which strictly bounds the number of traversal steps (`msize`). -/
inductive MimePart where
  | mk (mimeType : LC) (bodyData : Option LC) (parts : List MimePart)

def MimePart.mimeType : MimePart → LC
  | MimePart.mk t _ _ => t

def MimePart.bodyData : MimePart → Option LC
  | MimePart.mk _ d _ => d

def MimePart.parts : MimePart → List MimePart
  | MimePart.mk _ _ ps => ps

mutual

/-- The body of `_get_email_body`: return the node payload when present
and non-empty, otherwise search the sub-parts. -/
def getB : Nat → MimePart → LC
  | 0, _ => []
  | f + 1, MimePart.mk _ d parts =>
    match d with
    | some (c :: cs) => c :: cs
    | _ => getBL f parts

/-- The `for part in payload["parts"]` loop of `_get_email_body`: return
the payload of the first `text/html` part that has one; recurse into
`multipart/*` parts and return the first non-empty result. -/
def getBL : Nat → List MimePart → LC
  | 0, _ => []
  | _ + 1, [] => []
  | f + 1, p :: rest =>
    if p.mimeType = "text/html".data then
      match p.bodyData with
      | some (c :: cs) => c :: cs
      | _ => getBL f rest
    else if isPref ("multipart/".data) p.mimeType then
      let r := getB f p
      if r ≠ [] then r else getBL f rest
    else getBL f rest

end

mutual

/-- Executable size of a MIME tree, used as the fuel bound: every
traversal step of `getB`/`getBL` strictly decreases it. -/
def msize : MimePart → Nat
  | MimePart.mk _ _ ps => 1 + msizeL ps

def msizeL : List MimePart → Nat
  | [] => 1
  | p :: rest => 1 + msize p + msizeL rest

end

/-- `_get_email_body` at full fuel. -/
def getEmailBody (p : MimePart) : LC := getB (msize p) p

mutual

/-- No body data is reachable by the traversal from this node: the node
payload is absent or empty, and the sub-part loop finds none. -/
def okB : Nat → MimePart → Bool
  | 0, _ => true
  | f + 1, MimePart.mk _ d parts =>
    (match d with
     | some (_ :: _) => false
     | _ => true) && okL f parts

/-- Loop version of `okB`: `text/html` parts carry no payload and
`multipart/*` parts reach none. -/
def okL : Nat → List MimePart → Bool
  | 0, _ => true
  | _ + 1, [] => true
  | f + 1, p :: rest =>
    (if p.mimeType = "text/html".data then
      match p.bodyData with
      | some (_ :: _) => false
      | _ => true
     else if isPref ("multipart/".data) p.mimeType then okB f p
     else true) && okL f rest

end

mutual

/-- Some node of the MIME tree (within the fuel bound) has type
`text/html`. -/
def hasHtmlB : Nat → MimePart → Bool
  | 0, _ => false
  | f + 1, MimePart.mk mt _ parts =>
    if mt = "text/html".data then true else hasHtmlL f parts

def hasHtmlL : Nat → List MimePart → Bool
  | 0, _ => false
  | _ + 1, [] => false
  | f + 1, p :: rest => hasHtmlB f p || hasHtmlL f rest

end

/-- A raw fetched message: id, headers, MIME payload tree. -/
structure GmailMsg where
  id : LC
  headers : List (LC × LC)
  payload : MimePart

/-- The structured record of `_parse_email`.  The derived fields `text`,
`links` and `images` are BeautifulSoup functions of the body that do not
affect whether a record is produced, so the record keeps the body (`html`)
from which they are computed. -/
structure NormalizedEmail where
  id : LC
  fromAddr : LC
  subject : LC
  date : LC
  html : LC
deriving DecidableEq

/-- Python `{h["name"]: h["value"]}` header dict (later duplicates win)
followed by `.get(name, "")`. -/
def headerD (hs : List (LC × LC)) (name : LC) : LC :=
  lookupD (hs.foldl (fun m kv => insertS m kv.1 kv.2) []) name []

/-- `_parse_email` (lines 197-225): empty body means the record is
dropped. -/
def parseEmail (msg : GmailMsg) : Option NormalizedEmail :=
  let body := getEmailBody msg.payload
  if body = [] then none
  else
    some ⟨msg.id, headerD msg.headers ("From".data),
      headerD msg.headers ("Subject".data), headerD msg.headers ("Date".data),
      body⟩

/-! ## Market-image locator (`_extract_exec_sum_market_image`, lines
257-323)

The claims are about the behaviour of the locator on parsed markup, so the
`BeautifulSoup(html, "lxml")` parse is modelled at the DOM level: an
`HNode` tree of elements (tag, attributes, children) and text nodes.
Document order is pre-order; nodes are addressed by child-index paths.
`find_next` enumerates the nodes strictly after a node in pre-order (its
own descendants first), and `find_parent` walks the ancestor chain
nearest-first. -/
inductive HNode where
  | elem (tag : LC) (attrs : List (LC × LC)) (children : List HNode)
  | text (s : LC)

mutual

/-- Pre-order list of the paths of all nodes of the tree. -/
def pathsN : HNode → List (List Nat)
  | HNode.text _ => [[]]
  | HNode.elem _ _ ch => [] :: pathsL 0 ch

def pathsL : Nat → List HNode → List (List Nat)
  | _, [] => []
  | i, c :: rest => (pathsN c).map (fun p => i :: p) ++ pathsL (i + 1) rest

end

/-- The node addressed by a path. -/
def nodeAt : HNode → List Nat → Option HNode
  | n, [] => some n
  | HNode.text _, _ :: _ => none
  | HNode.elem _ _ ch, i :: rest =>
    match ch.get? i with
    | some c => nodeAt c rest
    | none => none

/-- Pattern `before\s*the\s*bell` (case-insensitive). -/
def bellToks : List Tok :=
  [Tok.litCI 'b', Tok.litCI 'e', Tok.litCI 'f', Tok.litCI 'o', Tok.litCI 'r',
   Tok.litCI 'e', Tok.ws, Tok.litCI 't', Tok.litCI 'h', Tok.litCI 'e',
   Tok.ws, Tok.litCI 'b', Tok.litCI 'e', Tok.litCI 'l', Tok.litCI 'l']

/-- Pattern `market\s*snapshot` (case-insensitive). -/
def snapshotToks : List Tok :=
  [Tok.litCI 'm', Tok.litCI 'a', Tok.litCI 'r', Tok.litCI 'k', Tok.litCI 'e',
   Tok.litCI 't', Tok.ws, Tok.litCI 's', Tok.litCI 'n', Tok.litCI 'a',
   Tok.litCI 'p', Tok.litCI 's', Tok.litCI 'h', Tok.litCI 'o', Tok.litCI 't']

/-- Pattern `markets\s*at\s*a\s*glance` (case-insensitive). -/
def glanceToks : List Tok :=
  [Tok.litCI 'm', Tok.litCI 'a', Tok.litCI 'r', Tok.litCI 'k', Tok.litCI 'e',
   Tok.litCI 't', Tok.litCI 's', Tok.ws, Tok.litCI 'a', Tok.litCI 't',
   Tok.ws, Tok.litCI 'a', Tok.ws, Tok.litCI 'g', Tok.litCI 'l',
   Tok.litCI 'a', Tok.litCI 'n', Tok.litCI 'c', Tok.litCI 'e']

/-- The block containers accepted by `find_parent(["td","tr","table","div"])`. -/
def containerTags : List LC := ["td".data, "tr".data, "table".data, "div".data]

/-- `soup.find_all(string=pattern)` membership test: a text node whose
string the pattern search matches. -/
def isTextMatch (root : HNode) (toks : List Tok) (p : List Nat) : Bool :=
  match nodeAt root p with
  | some (HNode.text s) => (searchToks toks s).isSome
  | _ => false

/-- `heading.find_parent(["td","tr","table","div"])`: the nearest proper
ancestor whose tag is a block container. -/
def findParentPath (root : HNode) (p : List Nat) : Option (List Nat) :=
  ((List.range p.length).reverse.map (fun k => p.take k)).find? (fun q =>
    match nodeAt root q with
    | some (HNode.elem tag _ _) => containerTags.contains tag
    | _ => false)

/-- An `img` element at this path. -/
def isImg (root : HNode) (q : List Nat) : Bool :=
  match nodeAt root q with
  | some (HNode.elem tag _ _) => tag = "img".data
  | _ => false

/-- The paths strictly after `q` in pre-order (descendants of `q` first,
then following nodes): the `next_elements` chain of `find_next`. -/
def afterPaths (root : HNode) (q : List Nat) : List (List Nat) :=
  ((pathsN root).dropWhile (fun r => !(r == q))).drop 1

/-- Strategy 1, inner loop body (lines 287-298): for one matching heading,
walk up to the container and take the next image in document order; accept
its `src` only if non-empty and free of `logo`/`icon`. -/
def strat1Heading (root : HNode) (p : List Nat) : Option LC :=
  match findParentPath root p with
  | none => none
  | some q =>
    match (afterPaths root q).find? (isImg root) with
    | none => none
    | some r =>
      match nodeAt root r with
      | some (HNode.elem _ attrs _) =>
        match lookupA attrs ("src".data) with
        | some (c :: cs) =>
          if subB ("logo".data) (asciiLower (c :: cs)) = false ∧
              subB ("icon".data) (asciiLower (c :: cs)) = false then
            some (c :: cs)
          else none
        | _ => none
      | _ => none

/-- Strategy 1 for one pattern: first heading whose next image is
accepted. -/
def strat1Pattern (root : HNode) (toks : List Tok) : Option LC :=
  ((pathsN root).filter (isTextMatch root toks)).findSome? (strat1Heading root)

/-- Strategy 1 (lines 278-298): the three patterns in priority order. -/
def strategy1 (root : HNode) : Option LC :=
  match strat1Pattern root bellToks with
  | some s => some s
  | none =>
    match strat1Pattern root snapshotToks with
    | some s => some s
    | none => strat1Pattern root glanceToks

/-- Strategy 2, per image (lines 301-307): market-related `alt` text. -/
def strat2Img (root : HNode) (r : List Nat) : Option LC :=
  match nodeAt root r with
  | some (HNode.elem _ attrs _) =>
    let alt := asciiLower (lookupD attrs ("alt".data) [])
    if subB ("market".data) alt || subB ("futures".data) alt ||
        subB ("indices".data) alt || subB ("stocks".data) alt ||
        subB ("bell".data) alt then
      match lookupA attrs ("src".data) with
      | some (c :: cs) => some (c :: cs)
      | _ => none
    else none
  | _ => none

/-- Strategy 2 (lines 300-307). -/
def strategy2 (root : HNode) : Option LC :=
  ((pathsN root).filter (isImg root)).findSome? (strat2Img root)

/-- `_extract_images` (lines 244-255): all `img` elements in document
order whose `src` is non-empty and not a data URI, capped at 10. -/
def extractImages (root : HNode) : List (LC × LC) :=
  ((pathsN root).filterMap (fun r =>
    match nodeAt root r with
    | some (HNode.elem tag attrs _) =>
      if tag = "img".data then
        match lookupA attrs ("src".data) with
        | some (c :: cs) =>
          if isPref ("data:".data) (c :: cs) then none
          else some (c :: cs, lookupD attrs ("alt".data) [])
        | _ => none
      else none
    | _ => none)).take 10

/-- The noise vocabulary of strategy 3 (line 315). -/
def skipVocab : List LC :=
  ["logo".data, "icon".data, "button".data, "social".data, "twitter".data,
   "facebook".data, "linkedin".data, "spacer".data, "1x1".data]

/-- Strategy 3, per extracted image (lines 311-320). -/
def strat3Image (img : LC × LC) : Option LC :=
  if skipVocab.any (fun w => subB w (asciiLower img.1) || subB w (asciiLower img.2)) then
    none
  else some img.1

/-- Strategy 3 (lines 309-320). -/
def strategy3 (root : HNode) : Option LC :=
  (extractImages root).findSome? strat3Image

/-- The fields of a normalized email read by the locator, with the parsed
DOM in place of the html string. -/
structure EmailRec where
  fromAddr : LC
  subject : LC
  doc : HNode

/-- The Exec Sum identification test (lines 263-268). -/
def isExecSumB (e : EmailRec) : Bool :=
  subB ("exec".data) (asciiLower e.fromAddr) ||
  subB ("execsum".data) (asciiLower e.fromAddr) ||
  subB ("executive summary".data) (asciiLower e.subject) ||
  subB ("exec sum".data) (asciiLower e.subject)

/-- The three strategies in priority order for one email. -/
def stratAll (root : HNode) : Option LC :=
  match strategy1 root with
  | some s => some s
  | none =>
    match strategy2 root with
    | some s => some s
    | none => strategy3 root

/-- `_extract_exec_sum_market_image` (lines 257-323): first qualifying
email whose strategies produce an image. -/
def extractExecSumMarketImage : List EmailRec → Option LC
  | [] => none
  | e :: rest =>
    if isExecSumB e then
      match stratAll e.doc with
      | some s => some s
      | none => extractExecSumMarketImage rest
    else extractExecSumMarketImage rest

/-- The DOM of the scenario of claim C2: the text `Before the Bell`
followed in document order by `<img src="logo.png">` then
`<img src="chart.png">`, inside a `div` container. -/
def execSumDoc : HNode :=
  HNode.elem ("html".data) []
    [HNode.elem ("body".data) []
      [HNode.elem ("div".data) []
        [HNode.elem ("p".data) [] [HNode.text ("Before the Bell".data)],
         HNode.elem ("img".data) [("src".data, "logo.png".data)] [],
         HNode.elem ("img".data) [("src".data, "chart.png".data)] []]]]

/-! ## The main run (`run`, lines 729-782; `send_email`, lines 669-693)

The externally observable steps of one run are modelled as an event trace:
the mailbox fetch, the LLM call, the outbound send (carrying the document
it would submit), the mark-as-read call and the timestamp save.  External
results (the fetched emails, the LLM response, the template file, the
current date, the header image) are inputs.  `send_email` raises
`ValueError` when `SEND_TO` is empty before any submission; the failure
notification is itself skipped when `SEND_TO` is empty, and the error is
re-raised. -/
inductive RunEv where
  | fetch
  | llm
  | send (body : LC)
  | markRead
  | save
deriving DecidableEq

inductive RunErr where
  | sendToMissing
deriving DecidableEq

/-- `run` (lines 729-782) as a trace of events together with the error
that aborts it, if any. -/
def runTrace (sendTo headerBg date template llmResponse : LC)
    (emails : List EmailRec) : List RunEv × Option RunErr :=
  if emails.isEmpty then ([RunEv.fetch], none)
  else
    let marketImage := extractExecSumMarketImage emails
    let sections := parseClaudeResponse llmResponse
    let html := assembleHtml date headerBg marketImage sections template
    if sendTo = [] then ([RunEv.fetch, RunEv.llm], some RunErr.sendToMissing)
    else
      ([RunEv.fetch, RunEv.llm, RunEv.send html, RunEv.markRead, RunEv.save],
        none)

/-! ## Theorems -/

/-- C1, counterexample.  The claim states that concatenating
`"## " + key + "\n" + value` for all keys (no separator) and re-parsing
recovers the same SectionMap.  For the parser output
`{A: "x", B: "y"}` (produced from `"## A\nx\n## B\ny"`), the blob is
`"## A\nx## B\ny"`: the second heading is glued onto the line `x`, so
re-parsing yields `{A: "x## B\ny"}`, not the original map. -/
theorem c1_counterexample :
    parseClaudeResponse (sectionBlobNoSep (parseClaudeResponse ("## A\nx\n## B\ny".data))) ≠
      parseClaudeResponse ("## A\nx\n## B\ny".data) := by
  decide

/-! ## String lemmas -/
theorem dropWhile_idem (p : Char → Bool) (l : LC) :
    (l.dropWhile p).dropWhile p = l.dropWhile p := by
  induction l with
  | nil => rfl
  | cons c cs ih =>
    by_cases h : p c
    · simp [List.dropWhile, h, ih]
    · simp [List.dropWhile, h]

theorem mem_dropWhile (p : Char → Bool) (l : LC) (c : Char)
    (h : c ∈ l.dropWhile p) : c ∈ l := by
  induction l with
  | nil => simp [List.dropWhile] at h
  | cons a as ih =>
    by_cases hp : p a
    · simp only [List.dropWhile, hp] at h
      exact List.mem_cons_of_mem a (ih h)
    · simpa only [List.dropWhile, hp] using h

theorem mem_stripL (l : LC) (c : Char) (h : c ∈ stripL l) : c ∈ l :=
  mem_dropWhile _ _ _ h

theorem mem_stripR (l : LC) (c : Char) (h : c ∈ stripR l) : c ∈ l := by
  unfold stripR at h
  rw [List.mem_reverse] at h
  have := mem_dropWhile _ _ _ h
  rwa [List.mem_reverse] at this

theorem mem_strip (l : LC) (c : Char) (h : c ∈ strip l) : c ∈ l :=
  mem_stripR _ _ (mem_stripL _ _ h)

theorem stripL_idem (l : LC) : stripL (stripL l) = stripL l :=
  dropWhile_idem _ _

theorem stripR_idem (l : LC) : stripR (stripR l) = stripR l := by
  unfold stripR
  rw [List.reverse_reverse, dropWhile_idem]

theorem dropWhile_eq_self_of_head (p : Char → Bool) (a : Char) (l : LC)
    (h : p a = false) : (a :: l).dropWhile p = a :: l := by
  simp [List.dropWhile, h]

theorem length_dropWhile_le (p : Char → Bool) (l : LC) :
    (l.dropWhile p).length ≤ l.length := by
  induction l with
  | nil => simp [List.dropWhile]
  | cons a as ih =>
    by_cases hp : p a
    · simp only [List.dropWhile, hp]
      exact Nat.le_trans ih (Nat.le_succ _)
    · simp [List.dropWhile, hp]

theorem head_not_spc_of_dropWhile_eq_self (p : Char → Bool) (a : Char) (l : LC)
    (h : (a :: l).dropWhile p = a :: l) : p a = false := by
  by_cases hp : p a
  · exfalso
    simp only [List.dropWhile, hp] at h
    have hlen := length_dropWhile_le p l
    rw [h] at hlen
    simp at hlen
  · simpa using hp

theorem stripR_stripL_of_stripR_eq (y : LC) (h : stripR y = y) :
    stripR (stripL y) = stripL y := by
  cases hrs : (stripL y).reverse with
  | nil =>
    have h0 : stripL y = [] := by simpa using congrArg List.reverse hrs
    rw [h0]; rfl
  | cons a as =>
    have hsplit : List.takeWhile isSpc y ++ List.dropWhile isSpc y = y := by
      rw [List.takeWhile_append_dropWhile]
    have hyrev : y.reverse = a :: (as ++ (List.takeWhile isSpc y).reverse) := by
      conv_lhs => rw [← hsplit]
      rw [List.reverse_append,
        show (List.dropWhile isSpc y).reverse = a :: as from hrs]
      simp
    have hdw : List.dropWhile isSpc y.reverse = y.reverse := by
      have := congrArg List.reverse h
      simpa [stripR] using this
    have hkeep : isSpc a = false := by
      apply head_not_spc_of_dropWhile_eq_self isSpc a
        (as ++ (List.takeWhile isSpc y).reverse)
      rw [← hyrev]; exact hdw
    show (List.dropWhile isSpc (stripL y).reverse).reverse = stripL y
    rw [hrs, dropWhile_eq_self_of_head _ _ _ hkeep, ← hrs, List.reverse_reverse]

theorem strip_idem (l : LC) : strip (strip l) = strip l := by
  unfold strip
  rw [stripR_stripL_of_stripR_eq (stripR l) (stripR_idem l), stripL_idem]

theorem stripR_append_nl (x : LC) : stripR (x ++ ['\n']) = stripR x := by
  unfold stripR
  rw [List.reverse_append]
  simp [List.dropWhile, isSpc]

theorem strip_append_nl (x : LC) : strip (x ++ ['\n']) = strip x := by
  unfold strip
  rw [stripR_append_nl]

/-! ## splitNl / joinNl lemmas -/
theorem splitNl_ne_nil (s : LC) : splitNl s ≠ [] := by
  cases s with
  | nil => simp [splitNl]
  | cons c cs =>
    by_cases h : c = '\n'
    · simp [splitNl, h]
    · simp only [splitNl, h, if_false]
      cases splitNl cs <;> simp

theorem splitNl_append_nl (a b : LC) :
    splitNl (a ++ '\n' :: b) = splitNl a ++ splitNl b := by
  induction a with
  | nil => simp [splitNl]
  | cons c cs ih =>
    by_cases h : c = '\n'
    · simp [splitNl, h, ih]
    · cases hs : splitNl cs with
      | nil => exact absurd hs (splitNl_ne_nil cs)
      | cons x xs =>
        have lhs1 : splitNl ((c :: cs) ++ '\n' :: b) =
            match splitNl (cs ++ '\n' :: b) with
            | [] => [[c]]
            | h :: t => (c :: h) :: t := by
          simp [splitNl, h]
        rw [lhs1, ih, hs]
        simp [splitNl, h, hs]

theorem splitNl_no_nl (s : LC) : ∀ l ∈ splitNl s, ('\n' : Char) ∉ l := by
  induction s with
  | nil => intro l hl; simp [splitNl] at hl; simp [hl]
  | cons c cs ih =>
    intro l hl
    by_cases h : c = '\n'
    · simp only [splitNl, h, if_true, List.mem_cons] at hl
      rcases hl with rfl | hl
      · simp
      · exact ih l hl
    · simp only [splitNl, h, if_false] at hl
      cases hs : splitNl cs with
      | nil => exact absurd hs (splitNl_ne_nil cs)
      | cons x xs =>
        rw [hs] at hl
        simp only [List.mem_cons] at hl
        rcases hl with rfl | hl
        · intro hmem
          rcases List.mem_cons.mp hmem with rfl | hmem
          · exact h rfl
          · exact ih x (by rw [hs]; exact List.mem_cons_self x xs) hmem
        · exact ih l (by rw [hs]; exact List.mem_cons_of_mem x hl)

theorem splitNl_eq_single (l : LC) (h : ('\n' : Char) ∉ l) : splitNl l = [l] := by
  induction l with
  | nil => rfl
  | cons c cs ih =>
    have hc : c ≠ '\n' := fun hc => h (hc ▸ List.mem_cons_self c cs)
    have hcs : ('\n' : Char) ∉ cs := fun hm => h (List.mem_cons_of_mem c hm)
    simp [splitNl, hc, ih hcs]

theorem joinNl_splitNl (s : LC) : joinNl (splitNl s) = s := by
  induction s with
  | nil => rfl
  | cons c cs ih =>
    by_cases h : c = '\n'
    · subst h
      simp only [splitNl, if_true]
      cases hs : splitNl cs with
      | nil => exact absurd hs (splitNl_ne_nil cs)
      | cons x xs =>
        rw [hs] at ih
        simp [joinNl, ih]
    · simp only [splitNl, h, if_false]
      cases hs : splitNl cs with
      | nil => exact absurd hs (splitNl_ne_nil cs)
      | cons x xs =>
        rw [hs] at ih
        cases xs with
        | nil => simpa [joinNl] using congrArg (c :: ·) ih
        | cons y ys => simpa [joinNl] using congrArg (c :: ·) ih

theorem joinNl_append_empty (c0 : List LC) (h : c0 ≠ []) :
    joinNl (c0 ++ [[]]) = joinNl c0 ++ ['\n'] := by
  induction c0 with
  | nil => exact absurd rfl h
  | cons x xs ih =>
    cases xs with
    | nil => simp [joinNl]
    | cons y ys =>
      have hy := ih (by simp)
      have hxy : joinNl ((x :: y :: ys) ++ [[]]) =
          x ++ '\n' :: joinNl ((y :: ys) ++ [[]]) := by
        show joinNl (x :: y :: (ys ++ [[]])) = _
        simp [joinNl]
      rw [hxy, hy]
      simp [joinNl]

theorem strip_joinNl_pad (c0 : List LC) :
    strip (joinNl (c0 ++ [[]])) = strip (joinNl c0) := by
  cases hc : c0 with
  | nil => rfl
  | cons x xs =>
    rw [← hc, joinNl_append_empty c0 (by rw [hc]; simp), strip_append_nl]

/-! ## Parser lemmas -/
theorem isHeading_nil : isHeading [] = false := rfl

theorem isPref_append_self (p x : LC) : isPref p (p ++ x) = true := by
  induction p with
  | nil => rfl
  | cons a ps ih => simp [isPref, ih]

theorem isHeading_marker (k : LC) : isHeading ("## ".data ++ k) = true :=
  isPref_append_self _ _

theorem drop3_marker (k : LC) : ("## ".data ++ k).drop 3 = k := rfl

theorem parseLoop_cons_heading (l : LC) (ls : List LC) (cur : Option LC)
    (content : List LC) (m : SMap) (h : isHeading l = true) :
    parseLoop (l :: ls) cur content m =
      parseLoop ls (some (strip (l.drop 3))) [] (closeSection cur content m) := by
  simp [parseLoop, h]

theorem parseLoop_cons_not_heading (l : LC) (ls : List LC) (cur : Option LC)
    (content : List LC) (m : SMap) (h : isHeading l = false) :
    parseLoop (l :: ls) cur content m = parseLoop ls cur (content ++ [l]) m := by
  simp [parseLoop, h]

theorem parseLoop_no_heading (ls : List LC) :
    ∀ (rest : List LC) (cur : Option LC) (content : List LC) (m : SMap),
      (∀ l ∈ ls, isHeading l = false) →
      parseLoop (ls ++ rest) cur content m = parseLoop rest cur (content ++ ls) m := by
  induction ls with
  | nil => intro rest cur content m _; simp
  | cons l ls ih =>
    intro rest cur content m h
    have hl : isHeading l = false := h l (List.mem_cons_self l ls)
    show parseLoop (l :: (ls ++ rest)) cur content m = _
    rw [parseLoop_cons_not_heading _ _ _ _ _ hl,
      ih rest cur (content ++ [l]) m (fun x hx => h x (List.mem_cons_of_mem l hx))]
    simp

theorem insertS_fresh (m : SMap) (k : LC) (v : LC)
    (h : k ∉ m.map Prod.fst) : insertS m k v = m ++ [(k, v)] := by
  induction m with
  | nil => rfl
  | cons p t ih =>
    obtain ⟨k1, v1⟩ := p
    have hne : k1 ≠ k := by
      intro he; exact h (by simp [he])
    simp only [insertS, hne, if_false]
    rw [ih (fun hm => h (by simp [hm]))]
    simp

theorem splitNl_blobSep (m : SMap) (hk : ∀ p ∈ m, ('\n' : Char) ∉ p.1) :
    splitNl (sectionBlobSep m) = lineList m := by
  induction m with
  | nil => rfl
  | cons p t ih =>
    obtain ⟨k, v⟩ := p
    have hknl : ('\n' : Char) ∉ "## ".data ++ k := by
      intro hm
      rcases List.mem_append.mp hm with h1 | h2
      · exact absurd h1 (by decide)
      · exact hk (k, v) (List.mem_cons_self _ _) h2
    show splitNl ("## ".data ++ k ++ '\n' :: (v ++ '\n' :: sectionBlobSep t)) = _
    rw [show "## ".data ++ k ++ '\n' :: (v ++ '\n' :: sectionBlobSep t) =
        ("## ".data ++ k) ++ '\n' :: (v ++ '\n' :: sectionBlobSep t) by simp]
    rw [splitNl_append_nl, splitNl_append_nl, splitNl_eq_single _ hknl,
      ih (fun q hq => hk q (List.mem_cons_of_mem _ hq))]
    rfl

/-- Main loop lemma for the repaired round-trip: running the parser over the
line sequence of `m` with a pending section `k0` and accumulated content
`c0` appends `(k0, strip (joinNl c0))` followed by all entries of `m`. -/
theorem parseLoop_lineList :
    ∀ (m : SMap) (k0 : LC) (c0 : List LC) (macc : SMap),
      (∀ p ∈ m, strip p.1 = p.1 ∧ strip p.2 = p.2 ∧
        ∀ l ∈ splitNl p.2, isHeading l = false) →
      (k0 :: m.map Prod.fst).Nodup →
      (∀ k ∈ k0 :: m.map Prod.fst, k ∉ macc.map Prod.fst) →
      parseLoop (lineList m) (some k0) c0 macc =
        macc ++ (k0, strip (joinNl c0)) :: m := by
  intro m
  induction m with
  | nil =>
    intro k0 c0 macc _ _ hfresh
    show parseLoop [[]] (some k0) c0 macc = _
    rw [parseLoop_cons_not_heading _ _ _ _ _ isHeading_nil]
    show insertS macc k0 (strip (joinNl (c0 ++ [[]]))) = _
    rw [strip_joinNl_pad,
      insertS_fresh macc k0 _ (hfresh k0 (List.mem_cons_self _ _))]
  | cons p t ih =>
    intro k0 c0 macc hent hnd hfresh
    obtain ⟨k1, v1⟩ := p
    obtain ⟨hk1s0, hv1s0, hv1h0⟩ := hent (k1, v1) (List.mem_cons_self _ _)
    have hk1s : strip k1 = k1 := hk1s0
    have hv1s : strip v1 = v1 := hv1s0
    have hv1h : ∀ l ∈ splitNl v1, isHeading l = false := hv1h0
    show parseLoop (("## ".data ++ k1) :: (splitNl v1 ++ lineList t))
        (some k0) c0 macc = _
    rw [parseLoop_cons_heading _ _ _ _ _ (isHeading_marker k1), drop3_marker, hk1s]
    have hfreshk0 : k0 ∉ macc.map Prod.fst := hfresh k0 (List.mem_cons_self _ _)
    have hclose : closeSection (some k0) c0 macc =
        macc ++ [(k0, strip (joinNl c0))] := by
      show insertS macc k0 (strip (joinNl c0)) = _
      exact insertS_fresh macc k0 _ hfreshk0
    rw [hclose, parseLoop_no_heading (splitNl v1) (lineList t) (some k1) []
      (macc ++ [(k0, strip (joinNl c0))]) hv1h, List.nil_append]
    have hnd' : (k1 :: t.map Prod.fst).Nodup := by
      have := hnd
      simp only [List.map_cons] at this
      exact this.of_cons
    have hk0nt : k0 ∉ k1 :: t.map Prod.fst := by
      have := hnd
      simp only [List.map_cons, List.nodup_cons] at this
      exact this.1
    have hfresh' : ∀ k ∈ k1 :: t.map Prod.fst,
        k ∉ (macc ++ [(k0, strip (joinNl c0))]).map Prod.fst := by
      intro k hkm hmem
      rw [List.map_append] at hmem
      rcases List.mem_append.mp hmem with h1 | h2
      · exact hfresh k (List.mem_cons_of_mem _ (by simpa using hkm)) h1
      · simp at h2
        subst h2
        exact hk0nt hkm
    rw [ih k1 (splitNl v1) _
      (fun q hq => hent q (List.mem_cons_of_mem _ hq)) hnd' hfresh']
    rw [joinNl_splitNl, hv1s]
    simp

theorem map_fst_insertS (m : SMap) (k v : LC) :
    (insertS m k v).map Prod.fst =
      if k ∈ m.map Prod.fst then m.map Prod.fst else m.map Prod.fst ++ [k] := by
  induction m with
  | nil => simp [insertS]
  | cons p t ih =>
    obtain ⟨k1, v1⟩ := p
    by_cases he : k1 = k
    · subst he
      simp [insertS]
    · simp only [insertS, he, if_false, List.map_cons, ih]
      by_cases hm : k ∈ t.map Prod.fst
      · simp [hm, Ne.symm he]
      · simp [hm, Ne.symm he]

theorem mem_insertS (m : SMap) (k v : LC) (p : LC × LC)
    (h : p ∈ insertS m k v) : p ∈ m ∨ p = (k, v) := by
  induction m with
  | nil => simp [insertS] at h; right; exact h
  | cons q t ih =>
    obtain ⟨k1, v1⟩ := q
    by_cases he : k1 = k
    · subst he
      simp only [insertS, if_true] at h
      rcases List.mem_cons.mp h with rfl | hm
      · right; rfl
      · left; exact List.mem_cons_of_mem _ hm
    · simp only [insertS, he, if_false] at h
      rcases List.mem_cons.mp h with rfl | hm
      · left; exact List.mem_cons_self _ _
      · rcases ih hm with h1 | h2
        · left; exact List.mem_cons_of_mem _ h1
        · right; exact h2

theorem InvM_insertS (m : SMap) (k v : LC) (hm : InvM m)
    (hks : strip k = k) (hknl : ('\n' : Char) ∉ k) (hvs : strip v = v) :
    InvM (insertS m k v) := by
  obtain ⟨hnd, hent⟩ := hm
  constructor
  · rw [map_fst_insertS]
    by_cases hin : k ∈ m.map Prod.fst
    · simpa [hin] using hnd
    · simp only [hin, if_false]
      rw [List.nodup_append]
      exact ⟨hnd, List.nodup_singleton _, by
        intro a ha hb
        simp at hb
        subst hb
        exact hin ha⟩
  · intro p hp
    rcases mem_insertS m k v p hp with h1 | h2
    · exact hent p h1
    · subst h2
      exact ⟨hks, hknl, hvs⟩

theorem parseLoop_inv (ls : List LC) :
    ∀ (cur : Option LC) (content : List LC) (macc : SMap),
      InvM macc →
      (∀ k, cur = some k → strip k = k ∧ ('\n' : Char) ∉ k) →
      (∀ l ∈ ls, ('\n' : Char) ∉ l) →
      InvM (parseLoop ls cur content macc) := by
  induction ls with
  | nil =>
    intro cur content macc hmacc hcur _
    cases cur with
    | none => exact hmacc
    | some k =>
      obtain ⟨hks, hknl⟩ := hcur k rfl
      exact InvM_insertS _ _ _ hmacc hks hknl (strip_idem _)
  | cons l ls ih =>
    intro cur content macc hmacc hcur hnl
    by_cases hh : isHeading l = true
    · rw [show parseLoop (l :: ls) cur content macc =
          parseLoop ls (some (strip (l.drop 3))) []
            (closeSection cur content macc) by simp [parseLoop, hh]]
      apply ih
      · cases cur with
        | none => exact hmacc
        | some k =>
          obtain ⟨hks, hknl⟩ := hcur k rfl
          exact InvM_insertS _ _ _ hmacc hks hknl (strip_idem _)
      · intro k hk
        injection hk with hk
        subst hk
        refine ⟨strip_idem _, ?_⟩
        intro hm
        have h1 : ('\n' : Char) ∈ l.drop 3 := mem_strip _ _ hm
        exact hnl l (List.mem_cons_self _ _) (List.drop_subset _ _ h1)
      · exact fun x hx => hnl x (List.mem_cons_of_mem _ hx)
    · rw [show parseLoop (l :: ls) cur content macc =
          parseLoop ls cur (content ++ [l]) macc by
        simp only [parseLoop]
        rw [if_neg (by simpa using hh)]]
      exact ih cur (content ++ [l]) macc hmacc hcur
        (fun x hx => hnl x (List.mem_cons_of_mem _ hx))

theorem parse_InvM (s : LC) : InvM (parseClaudeResponse s) := by
  apply parseLoop_inv
  · exact ⟨List.nodup_nil, by intro p hp; simp at hp⟩
  · intro k hk; cases hk
  · exact splitNl_no_nl s

/-- Round-trip with the separator, for any map satisfying the parser
invariant whose value lines contain no heading marker. -/
theorem roundtrip_of_InvM (m : SMap) (hm : InvM m)
    (hvals : ∀ p ∈ m, ∀ l ∈ splitNl p.2, isHeading l = false) :
    parseClaudeResponse (sectionBlobSep m) = m := by
  obtain ⟨hnd, hent⟩ := hm
  show parseLoop (splitNl (sectionBlobSep m)) none [] [] = m
  rw [splitNl_blobSep m (fun p hp => (hent p hp).2.1)]
  cases m with
  | nil => rfl
  | cons p t =>
    obtain ⟨k, v⟩ := p
    obtain ⟨hks0, _, hvs0⟩ := hent (k, v) (List.mem_cons_self _ _)
    have hks : strip k = k := hks0
    have hvs : strip v = v := hvs0
    show parseLoop (("## ".data ++ k) :: (splitNl v ++ lineList t))
        none [] [] = _
    rw [parseLoop_cons_heading _ _ _ _ _ (isHeading_marker k), drop3_marker, hks]
    show parseLoop (splitNl v ++ lineList t) (some k) [] [] = _
    rw [parseLoop_no_heading (splitNl v) (lineList t) (some k) [] []
      (hvals (k, v) (List.mem_cons_self _ _)), List.nil_append]
    rw [parseLoop_lineList t k (splitNl v) []
      (fun q hq => ⟨(hent q (List.mem_cons_of_mem _ hq)).1,
        (hent q (List.mem_cons_of_mem _ hq)).2.2,
        hvals q (List.mem_cons_of_mem _ hq)⟩)
      (by simpa using hnd)
      (by intro a _ hb; simp at hb)]
    rw [joinNl_splitNl, hvs]
    simp

/-- C1, amended.  For every SectionMap produced by `parse_claude_response`
in which no stored value contains a line starting with the heading marker
`## `, concatenating `"## " + key + "\n" + value + "\n"` (note the
terminating newline after each value, which the original claim omits) for
all keys in original order and re-parsing yields the same SectionMap. -/
theorem c1_roundtrip_amended (s : LC)
    (hvals : ∀ p ∈ parseClaudeResponse s, ∀ l ∈ splitNl p.2, isHeading l = false) :
    parseClaudeResponse (sectionBlobSep (parseClaudeResponse s)) =
      parseClaudeResponse s :=
  roundtrip_of_InvM (parseClaudeResponse s) (parse_InvM s) hvals

/-- C1, witness for the amended round-trip at a concrete response. -/
theorem c1_roundtrip_amended_witness :
    parseClaudeResponse (sectionBlobSep (parseClaudeResponse ("## A\nx\n## B\ny".data))) =
      parseClaudeResponse ("## A\nx\n## B\ny".data) :=
  c1_roundtrip_amended ("## A\nx\n## B\ny".data) (by decide)

/-! ## Claims C5, C6, C7 -/
theorem exists_of_findSome_eq_some {a b : Type} (f : a → Option b) :
    ∀ (l : List a) (x : b), l.findSome? f = some x → ∃ y, y ∈ l ∧ f y = some x := by
  intro l
  induction l with
  | nil => intro x h; simp [List.findSome?] at h
  | cons c cs ih =>
    intro x h
    have h2 : (match f c with
        | some r => some r
        | none => cs.findSome? f) = some x := h
    cases hfc : f c with
    | some r =>
      rw [hfc] at h2
      injection h2 with h2
      exact ⟨c, List.mem_cons_self _ _, by rw [hfc, h2]⟩
    | none =>
      rw [hfc] at h2
      obtain ⟨y, hy, hfy⟩ := ih x h2
      exact ⟨y, List.mem_cons_of_mem _ hy, hfy⟩

/-- A successful anchored match of a token list containing the literal `c`
consumes an occurrence of `c`: the input must contain `c`. -/
theorem mem_of_matchToks_lit :
    ∀ (ts : List Tok) (s : LC) (r : List LC × LC) (c : Char),
      matchToks ts s = some r → Tok.lit c ∈ ts → c ∈ s := by
  intro ts
  induction ts with
  | nil => intro s r c _ hm; simp at hm
  | cons t ts ih =>
    intro s r c h hm
    cases t with
    | lit c1 =>
      cases s with
      | nil => simp [matchToks] at h
      | cons x xs =>
        by_cases hx : x = c1
        · simp only [matchToks, hx, if_true] at h
          rcases List.mem_cons.mp hm with he | hts
          · injection he with he
            subst he
            subst hx
            exact List.mem_cons_self _ _
          · exact List.mem_cons_of_mem _ (ih xs r c h hts)
        · simp [matchToks, hx] at h
    | litCI c1 =>
      cases s with
      | nil => simp [matchToks] at h
      | cons x xs =>
        by_cases hx : x.toLower = c1
        · simp only [matchToks, hx, if_true] at h
          rcases List.mem_cons.mp hm with he | hts
          · exact absurd he (by simp)
          · exact List.mem_cons_of_mem _ (ih xs r c h hts)
        · simp [matchToks, hx] at h
    | ws =>
      have hts : Tok.lit c ∈ ts := by
        rcases List.mem_cons.mp hm with he | hts
        · exact absurd he (by simp)
        · exact hts
      obtain ⟨k, _, hk⟩ := exists_of_findSome_eq_some _ _ _ h
      exact List.drop_subset _ _ (ih _ r c hk hts)
    | lazyCap =>
      have hts : Tok.lit c ∈ ts := by
        rcases List.mem_cons.mp hm with he | hts
        · exact absurd he (by simp)
        · exact hts
      obtain ⟨k, _, hk⟩ := exists_of_findSome_eq_some _ _ _ h
      rcases Option.map_eq_some'.mp hk with ⟨pr, hpr, _⟩
      exact List.drop_subset _ _ (ih _ pr c hpr hts)
    | lazyAnon =>
      have hts : Tok.lit c ∈ ts := by
        rcases List.mem_cons.mp hm with he | hts
        · exact absurd he (by simp)
        · exact hts
      obtain ⟨k, _, hk⟩ := exists_of_findSome_eq_some _ _ _ h
      exact List.drop_subset _ _ (ih _ r c hk hts)
    | greedyCap =>
      have hts : Tok.lit c ∈ ts := by
        rcases List.mem_cons.mp hm with he | hts
        · exact absurd he (by simp)
        · exact hts
      obtain ⟨k, _, hk⟩ := exists_of_findSome_eq_some _ _ _ h
      rcases Option.map_eq_some'.mp hk with ⟨pr, hpr, _⟩
      exact List.drop_subset _ _ (ih _ pr c hpr hts)

theorem matchToks_none_of_lit_not_mem (ts : List Tok) (s : LC) (c : Char)
    (hts : Tok.lit c ∈ ts) (hc : c ∉ s) : matchToks ts s = none := by
  cases hm : matchToks ts s with
  | none => rfl
  | some r => exact absurd (mem_of_matchToks_lit ts s r c hm hts) hc

/-- C5.  The reads formatter recovers
`(title, link_url, source, description) =
("Title", "http://u", "Source", "Desc text")` from the item line of
`"- **[Title](http://u)** · Source · Desc text"` (pattern 1), and for every
line with no `·` separator and no markdown link (`re.search` of
`\[.+?\]\((.+?)\)` fails) it falls back to the whole line as title with the
placeholder link `#`.  The line fed to the pattern stage is the per-item
line after bullet-marker and paywall-tag processing. -/
theorem c5_reads_formatter :
    parseReadFields (markerStrip (strip ("- **[Title](http://u)** · Source · Desc text".data))) =
      ⟨"Title".data, "http://u".data, "Source".data, "Desc text".data⟩ ∧
    ∀ l : LC, ('·' : Char) ∉ l → searchToks linkSearchToks l = none →
      parseReadFields l = ⟨l, "#".data, [], []⟩ := by
  constructor
  · decide
  · intro l hc hs
    have h1 : matchToks pat1Toks l = none :=
      matchToks_none_of_lit_not_mem _ _ '·' (by decide) hc
    have h2 : matchToks pat2Toks l = none :=
      matchToks_none_of_lit_not_mem _ _ '·' (by decide) hc
    have h3 : matchToks pat3Toks l = none :=
      matchToks_none_of_lit_not_mem _ _ '·' (by decide) hc
    have h4 : matchToks pat4Toks l = none :=
      matchToks_none_of_lit_not_mem _ _ '·' (by decide) hc
    simp only [parseReadFields, h1, h2, h3, h4, hs]
    rfl

/-- C5, witness for the fallback branch at a concrete line. -/
theorem c5_reads_formatter_witness :
    parseReadFields ("plain line".data) = ⟨"plain line".data, "#".data, [], []⟩ :=
  c5_reads_formatter.2 ("plain line".data) (by decide) (by decide)

theorem subB_append_left (pat x y : LC) (h : subB pat y = true) :
    subB pat (x ++ y) = true := by
  induction x with
  | nil => simpa using h
  | cons c cs ih =>
    show (isPref pat (c :: (cs ++ y)) || subB pat (cs ++ y)) = true
    rw [ih]
    simp

theorem subB_self_append (pat y : LC) : subB pat (pat ++ y) = true := by
  cases pat with
  | nil => cases y <;> simp [subB, isPref]
  | cons p ps =>
    show (isPref (p :: ps) ((p :: ps) ++ y) || _) = true
    rw [isPref_append_self]
    simp

set_option maxRecDepth 40000 in
/-- C6, counterexample.  The claim states the `[Paywall]` tag is detected
case-insensitively.  For the item line `"Foo [PAYWALL]"` (uppercase casing)
the code detects nothing: no badge is attached, the tag is not stripped,
and the rendered item does not contain the badge fragment. -/
theorem c6_counterexample :
    extractPaywall ("Foo [PAYWALL]".data) = ("Foo [PAYWALL]".data, []) ∧
    subB paywallBadge
      ((formatReadsLine ("#60A5FA".data) ("- Foo [PAYWALL]".data)).getD []) = false := by
  constructor
  · decide
  · decide

set_option maxRecDepth 40000 in
/-- C6, amended.  The tag is detected only in the two exact casings
`[Paywall]` and `[paywall]`: for every item line (after bullet-marker
stripping) containing one of these, the paywall badge is attached, the line
handed to the field patterns is the line with every occurrence of both
exact tags removed (one left-to-right replacement pass each) and stripped,
and the rendered item contains the badge fragment. -/
theorem c6_paywall_amended (l accent : LC)
    (h : subB ("[Paywall]".data) l = true ∨ subB ("[paywall]".data) l = true) :
    (extractPaywall l).2 = paywallBadge ∧
    (extractPaywall l).1 =
      strip (replaceAll (replaceAll l ("[Paywall]".data) []) ("[paywall]".data) []) ∧
    subB paywallBadge
      (readItemHtml accent (parseReadFields (extractPaywall l).1)
        (extractPaywall l).2) = true := by
  have hcond : (subB ("[Paywall]".data) l || subB ("[paywall]".data) l) = true := by
    rcases h with h | h <;> simp [h]
  have he : extractPaywall l =
      (strip (replaceAll (replaceAll l ("[Paywall]".data) []) ("[paywall]".data) []),
        paywallBadge) := by
    unfold extractPaywall
    rw [hcond]
    simp
  refine ⟨by rw [he], by rw [he], ?_⟩
  rw [he]
  show subB paywallBadge (readItemHtml accent _ paywallBadge) = true
  have hsplit : ∀ (a : LC) (f : ReadFields),
      readItemHtml a f paywallBadge =
        ("<li style=\"margin-bottom: 16px; padding-left: 16px; position: relative;\">\n                <span style=\"position: absolute; left: 0; color: ".data ++
          a ++ ";\">›</span>\n                <a href=\"".data ++ f.linkUrl ++
          "\" style=\"color: #FFFFFF; font-size: 15px; font-weight: 600; text-decoration: none;\">".data ++
          f.title ++
          "</a>\n                <span style=\"color: #71717A; font-size: 14px;\"> · ".data ++
          f.source ++ "</span>\n                ".data) ++
        (paywallBadge ++
          ("\n                <p style=\"margin: 6px 0 0 0; font-size: 14px; color: #A1A1AA; line-height: 1.5;\">".data ++
            f.descr ++ "</p>\n              </li>".data)) := by
    intro a f
    unfold readItemHtml
    simp [List.append_assoc]
  rw [hsplit]
  exact subB_append_left _ _ _ (subB_self_append _ _)

/-- C6, witness at a concrete tagged line. -/
theorem c6_paywall_amended_witness :
    (extractPaywall ("Read this [Paywall]".data)).2 = paywallBadge ∧
    (extractPaywall ("Read this [Paywall]".data)).1 =
      strip (replaceAll (replaceAll ("Read this [Paywall]".data)
        ("[Paywall]".data) []) ("[paywall]".data) []) ∧
    subB paywallBadge
      (readItemHtml ("#60A5FA".data)
        (parseReadFields (extractPaywall ("Read this [Paywall]".data)).1)
        (extractPaywall ("Read this [Paywall]".data)).2) = true :=
  c6_paywall_amended ("Read this [Paywall]".data) ("#60A5FA".data)
    (Or.inl (by decide))

set_option maxRecDepth 40000 in
/-- C7, counterexample.  The claim states the line `"- "` (bullet marker
with empty body) yields no list item.  The code first whitespace-strips the
line to `"-"`, which matches no bullet marker and is non-empty, so a list
item with body `-` is produced. -/
theorem c7_counterexample :
    bulletLineHtml ("#34D399".data) ("- ".data) =
      some (bulletItemHtml ("#34D399".data) ("-".data)) := by
  decide

/-- C7, amended.  Each line is whitespace-stripped before the marker check,
so no line ever becomes empty by marker stripping alone; a line that is
empty (or whitespace-only) produces no list item, while `"- "` strips to
`"-"` and produces a list item. -/
theorem c7_bullets_amended (accent l : LC) (h : strip l = []) :
    bulletLineHtml accent l = none := by
  unfold bulletLineHtml
  rw [h]
  rfl

/-- C7, witness at a whitespace-only line. -/
theorem c7_bullets_amended_witness :
    bulletLineHtml ("#34D399".data) ("   ".data) = none :=
  c7_bullets_amended ("#34D399".data) ("   ".data) (by decide)

/-! ## Claim C3 -/
theorem splitGo_ne_nil (pat : LC) : ∀ (f : Nat) (s : LC), splitGo pat f s ≠ [] := by
  intro f
  cases f with
  | zero => intro s; simp [splitGo]
  | succ f =>
    intro s
    cases s with
    | nil => simp [splitGo]
    | cons c cs =>
      by_cases he : pat.isEmpty
      · simp [splitGo, he]
      · by_cases hp : isPref pat (c :: cs) = true
        · simp [splitGo, he, hp]
        · simp only [splitGo, he, if_false, hp]
          cases splitGo pat f cs <;> simp

theorem replGo_eq_joinSep_splitGo (pat repl : LC) :
    ∀ (f : Nat) (s : LC), replGo pat repl f s = joinSep repl (splitGo pat f s) := by
  intro f
  induction f with
  | zero => intro s; rfl
  | succ f ih =>
    intro s
    cases s with
    | nil => rfl
    | cons c cs =>
      by_cases he : pat.isEmpty
      · simp [replGo, splitGo, he, joinSep]
      · by_cases hp : isPref pat (c :: cs) = true
        · simp only [replGo, splitGo, he, if_false, hp, if_true]
          rw [ih]
          cases hs : splitGo pat f (List.drop pat.length (c :: cs)) with
          | nil => exact absurd hs (splitGo_ne_nil pat f _)
          | cons h t => simp [joinSep]
        · have hcs := ih cs
          cases hs : splitGo pat f cs with
          | nil => exact absurd hs (splitGo_ne_nil pat f cs)
          | cons h t =>
            rw [hs] at hcs
            simp only [replGo, splitGo, he, hp, Bool.false_eq_true, if_false, hs]
            rw [hcs]
            cases t with
            | nil => simp [joinSep]
            | cons y t2 => simp [joinSep]

/-- C3, amended.  Every placeholder-token substitution in `assemble_html`
is a Python `str.replace`, which replaces every non-overlapping occurrence
of the token, left to right, not only the first: the substitution primitive
coincides with splitting the template at every occurrence of the token and
joining the pieces with the replacement. -/
theorem c3_replace_all_amended (s pat repl : LC) :
    replaceAll s pat repl = joinSep repl (splitOnStr s pat) :=
  replGo_eq_joinSep_splitGo pat repl s.length s

set_option maxRecDepth 40000 in
/-- C3, counterexample.  For a template holding the `GOOD_MORNING` token
twice, `assemble_html` replaces both occurrences (the claim says the second
is left unchanged): the result is `hi|hi` and the token no longer occurs. -/
theorem c3_counterexample :
    assembleHtml ("d".data) ("h".data) none [("GOOD_MORNING".data, "hi".data)]
        ("\x7b\x7bGOOD_MORNING_CONTENT\x7d\x7d|\x7b\x7bGOOD_MORNING_CONTENT\x7d\x7d".data) =
      "hi|hi".data ∧
    subB ("\x7b\x7bGOOD_MORNING_CONTENT\x7d\x7d".data)
      (assembleHtml ("d".data) ("h".data) none [("GOOD_MORNING".data, "hi".data)]
        ("\x7b\x7bGOOD_MORNING_CONTENT\x7d\x7d|\x7b\x7bGOOD_MORNING_CONTENT\x7d\x7d".data)) =
      false := by
  constructor
  · decide
  · decide

/-! ## Claim C8 -/
theorem replGo_cons_not_pref (pat repl : LC) (f : Nat) (c : Char) (cs : LC)
    (hne : pat.isEmpty = false) (hp : isPref pat (c :: cs) = false) :
    replGo pat repl (f + 1) (c :: cs) = c :: replGo pat repl f cs := by
  simp [replGo, hne, hp]

set_option maxRecDepth 100000 in
/-- The callout fragment is never the empty string, whatever content is
substituted into it. -/
theorem nycFragment_ne_nil (x : LC) :
    replaceAll nycCalloutTemplate ("\x7bcontent\x7d".data) x ≠ [] := by
  unfold replaceAll
  cases hl : nycCalloutTemplate.length with
  | zero => exact absurd hl (by decide)
  | succ f =>
    have ht : nycCalloutTemplate = '<' :: nycCalloutTemplate.drop 1 := rfl
    rw [ht, replGo_cons_not_pref _ _ _ _ _ (by decide) (by decide)]
    simp

/-- C8, amended.  The callout placeholder is substituted with the empty
string exactly when the `NYC_CALLOUT` section is absent, or present with an
empty value, or its trimmed value uppercases to `NONE`; in every other case
it is substituted with the fixed callout fragment containing the
paragraph-formatted content.  (The original claim omits the present-but-
empty case, which the code also renders as the empty string.) -/
theorem c8_callout_amended (sections : SMap) :
    (nycCalloutHtml sections = [] ↔
      (lookupA sections ("NYC_CALLOUT".data) = none ∨
        lookupA sections ("NYC_CALLOUT".data) = some [] ∨
        asciiUpper (strip (lookupD sections ("NYC_CALLOUT".data) [])) = "NONE".data)) ∧
    (∀ v, lookupA sections ("NYC_CALLOUT".data) = some v → v ≠ [] →
      asciiUpper (strip v) ≠ "NONE".data →
      nycCalloutHtml sections =
        replaceAll nycCalloutTemplate ("\x7bcontent\x7d".data) (formatParagraph v)) := by
  constructor
  · cases hl : lookupA sections ("NYC_CALLOUT".data) with
    | none =>
      have hv : lookupD sections ("NYC_CALLOUT".data) [] = [] := by
        unfold lookupD
        rw [hl]
      constructor
      · intro _
        left
        rfl
      · intro _
        unfold nycCalloutHtml
        rw [hv]
        simp
    | some v =>
      have hv : lookupD sections ("NYC_CALLOUT".data) [] = v := by
        unfold lookupD
        rw [hl]
      by_cases h0 : v = []
      · subst h0
        constructor
        · intro _
          right
          left
          rfl
        · intro _
          unfold nycCalloutHtml
          rw [hv]
          simp
      · by_cases hn : asciiUpper (strip v) = "NONE".data
        · constructor
          · intro _
            right
            right
            rw [hv]
            exact hn
          · intro _
            unfold nycCalloutHtml
            rw [hv]
            simp [hn]
        · constructor
          · intro hnil
            exfalso
            apply nycFragment_ne_nil (formatParagraph v)
            rw [← hnil]
            unfold nycCalloutHtml
            rw [hv]
            simp [h0, hn]
          · intro hor
            rcases hor with h1 | h2 | h3
            · exact Option.noConfusion h1
            · exact absurd (Option.some.inj h2) h0
            · have h3a : asciiUpper (strip v) = "NONE".data := by
                rw [← hv]
                exact h3
              exact absurd h3a hn
  · intro v hl h0 hn
    have hv : lookupD sections ("NYC_CALLOUT".data) [] = v := by
      unfold lookupD
      rw [hl]
    unfold nycCalloutHtml
    rw [hv]
    simp [h0, hn]

/-- C8, witness: a present, non-sentinel callout yields the fragment. -/
theorem c8_callout_amended_witness :
    nycCalloutHtml [("NYC_CALLOUT".data, "New bar opened".data)] =
      replaceAll nycCalloutTemplate ("\x7bcontent\x7d".data)
        (formatParagraph ("New bar opened".data)) :=
  (c8_callout_amended [("NYC_CALLOUT".data, "New bar opened".data)]).2
    ("New bar opened".data) (by decide) (by decide) (by decide)

set_option maxRecDepth 40000 in
/-- C8, counterexample.  For a SectionMap carrying `NYC_CALLOUT` with the
empty value, the claim prescribes the callout fragment (the value is
present and its trimmed value is not `NONE`), but the code substitutes the
empty string. -/
theorem c8_counterexample :
    nycCalloutHtml [("NYC_CALLOUT".data, [])] = [] ∧
    replaceAll nycCalloutTemplate ("\x7bcontent\x7d".data) (formatParagraph []) ≠ [] := by
  constructor
  · decide
  · exact nycFragment_ne_nil _

/-- C4, counterexample.  The claim states that a non-empty body implies an
HTML part somewhere in the MIME tree.  A single-part `text/plain` message
with top-level body data has no HTML part anywhere, yet `_get_email_body`
returns that data from its first branch (which never inspects the MIME
type), and `_parse_email` produces a record. -/
theorem c4_counterexample :
    hasHtmlB (msize (MimePart.mk ("text/plain".data) (some ("hi".data)) []))
      (MimePart.mk ("text/plain".data) (some ("hi".data)) []) = false ∧
    parseEmail ⟨"m1".data, [("From".data, "a@b".data)],
        MimePart.mk ("text/plain".data) (some ("hi".data)) []⟩ =
      some ⟨"m1".data, "a@b".data, [], [], "hi".data⟩ := by
  constructor
  · decide
  · decide

theorem getB_empty_of_ok :
    ∀ f : Nat, (∀ p : MimePart, okB f p = true → getB f p = []) ∧
      (∀ ps : List MimePart, okL f ps = true → getBL f ps = []) := by
  intro f
  induction f with
  | zero => exact ⟨fun _ _ => rfl, fun _ _ => rfl⟩
  | succ f ih =>
    constructor
    · intro p hok
      obtain ⟨mt, d, parts⟩ := p
      cases d with
      | none =>
        simp only [okB, Bool.true_and] at hok
        simp only [getB]
        exact ih.2 parts hok
      | some s =>
        cases s with
        | nil =>
          simp only [okB, Bool.true_and] at hok
          simp only [getB]
          exact ih.2 parts hok
        | cons c cs =>
          simp only [okB, Bool.false_and] at hok
          exact Bool.noConfusion hok
    · intro ps hok
      cases ps with
      | nil => rfl
      | cons p rest =>
        simp only [okL, Bool.and_eq_true] at hok
        obtain ⟨hp, hrest⟩ := hok
        simp only [getBL]
        by_cases h1 : p.mimeType = "text/html".data
        · rw [if_pos h1] at hp ⊢
          cases hd : p.bodyData with
          | none => exact ih.2 rest hrest
          | some s =>
            cases s with
            | nil => exact ih.2 rest hrest
            | cons c cs =>
              rw [hd] at hp
              simp at hp
        · rw [if_neg h1] at hp ⊢
          by_cases h2 : isPref ("multipart/".data) p.mimeType = true
          · rw [if_pos h2] at hp ⊢
            have hr : getB f p = [] := ih.1 p hp
            simp only [hr]
            simpa using ih.2 rest hrest
          · rw [if_neg h2] at hp ⊢
            exact ih.2 rest hrest

/-- Converse of `getB_empty_of_ok`: whenever the traversal (at this fuel)
reaches some body data, the extracted body is non-empty. -/
theorem getB_ne_empty_of_not_ok :
    ∀ f : Nat, (∀ p : MimePart, okB f p = false → getB f p ≠ []) ∧
      (∀ ps : List MimePart, okL f ps = false → getBL f ps ≠ []) := by
  intro f
  induction f with
  | zero =>
    constructor
    · intro p h
      simp [okB] at h
    · intro ps h
      simp [okL] at h
  | succ f ih =>
    constructor
    · intro p h
      obtain ⟨mt, d, parts⟩ := p
      cases d with
      | none =>
        simp only [okB, Bool.true_and] at h
        simp only [getB]
        exact ih.2 parts h
      | some s =>
        cases s with
        | nil =>
          simp only [okB, Bool.true_and] at h
          simp only [getB]
          exact ih.2 parts h
        | cons c cs =>
          simp only [getB]
          simp
    · intro ps h
      cases ps with
      | nil => simp [okL] at h
      | cons p rest =>
        simp only [okL, Bool.and_eq_false_iff] at h
        simp only [getBL]
        by_cases h1 : p.mimeType = "text/html".data
        · rw [if_pos h1] at h ⊢
          cases hd : p.bodyData with
          | none =>
            rw [hd] at h
            rcases h with hc | hrest
            · exact Bool.noConfusion hc
            · exact ih.2 rest hrest
          | some s =>
            cases s with
            | nil =>
              rw [hd] at h
              rcases h with hc | hrest
              · exact Bool.noConfusion hc
              · exact ih.2 rest hrest
            | cons c cs => simp
        · rw [if_neg h1] at h ⊢
          by_cases h2 : isPref ("multipart/".data) p.mimeType = true
          · rw [if_pos h2] at h ⊢
            rcases h with hb | hrest
            · have hr : getB f p ≠ [] := ih.1 p hb
              simp only [if_pos hr]
              exact hr
            · by_cases hb2 : okB f p = true
              · have hr : getB f p = [] := (getB_empty_of_ok f).1 p hb2
                simp only [hr]
                simpa using ih.2 rest hrest
              · have hb3 : okB f p = false := by
                  cases hbv : okB f p with
                  | true => exact absurd hbv hb2
                  | false => rfl
                have hr : getB f p ≠ [] := ih.1 p hb3
                simp only [if_pos hr]
                exact hr
          · rw [if_neg h2] at h ⊢
            rcases h with hc | hrest
            · exact Bool.noConfusion hc
            · exact ih.2 rest hrest

/-- A record is dropped exactly when the extracted body is empty. -/
theorem parseEmail_none_iff (msg : GmailMsg) :
    parseEmail msg = none ↔ getEmailBody msg.payload = [] := by
  unfold parseEmail
  by_cases hb : getEmailBody msg.payload = []
  · simp [hb]
  · simp [hb]

/-- C4, amended.  The body extraction ignores the MIME type of the node
whose payload it returns: `_get_email_body` yields the empty body (and
`_parse_email` drops the record) exactly when the traversal reaches no
body data, that is, when the top-level payload carries none, no `text/html`
part encountered carries any, and `multipart/*` subtrees reach none.  A
message with no HTML part can still produce a record through top-level
body data. -/
theorem c4_body_extraction_amended :
    (∀ (f : Nat) (p : MimePart), getB f p = [] ↔ okB f p = true) ∧
    (∀ msg : GmailMsg,
      parseEmail msg = none ↔ okB (msize msg.payload) msg.payload = true) := by
  have hiff : ∀ (f : Nat) (p : MimePart), getB f p = [] ↔ okB f p = true := by
    intro f p
    constructor
    · intro h
      cases hb : okB f p with
      | true => rfl
      | false => exact absurd h ((getB_ne_empty_of_not_ok f).1 p hb)
    · exact (getB_empty_of_ok f).1 p
  refine ⟨hiff, ?_⟩
  intro msg
  rw [parseEmail_none_iff]
  exact hiff (msize msg.payload) msg.payload

/-- C4, witness: a multipart message with a data-free tree and a dataless
`text/plain` leaf is dropped; conversely the drop of that record certifies
that its traversal reaches no body data. -/
theorem c4_body_extraction_amended_witness :
    parseEmail ⟨"m2".data, [],
        MimePart.mk ("multipart/alternative".data) none
          [MimePart.mk ("text/plain".data) (some ("hello".data)) [],
            MimePart.mk ("multipart/related".data) none []]⟩ = none :=
  (c4_body_extraction_amended.2 _).mpr (by decide)

/-- C2, counterexample.  The claim states that strategy 1 skips the logo
image and returns `chart.png` in this scenario.  Strategy 1 only inspects
the single next image after the container (`parent.find_next("img")`);
that image is the logo, it is rejected, and strategy 1 moves to the next
textual match instead of the next image, so it finds nothing. -/
theorem c2_counterexample : strategy1 execSumDoc = none := by decide

/-- C2, amended.  In the described scenario strategy 1 rejects the logo
(the one image it inspects) and yields nothing; `chart.png` is instead
selected by strategy 3 (the noise-vocabulary fallback over the extracted
image list), so the locator as a whole still returns `chart.png` for every
email identified as the Executive Summary source. -/
theorem c2_market_image_amended (fromAddr subject : LC)
    (h : isExecSumB ⟨fromAddr, subject, execSumDoc⟩ = true) :
    strategy1 execSumDoc = none ∧
    strategy3 execSumDoc = some ("chart.png".data) ∧
    extractExecSumMarketImage [⟨fromAddr, subject, execSumDoc⟩] =
      some ("chart.png".data) := by
  refine ⟨by decide, by decide, ?_⟩
  have hall : stratAll execSumDoc = some ("chart.png".data) := by decide
  simp only [extractExecSumMarketImage, h, if_true]
  rw [hall]

/-- C2, witness at a concrete Exec Sum sender. -/
theorem c2_market_image_amended_witness :
    strategy1 execSumDoc = none ∧
    strategy3 execSumDoc = some ("chart.png".data) ∧
    extractExecSumMarketImage
        [⟨"newsletter@execsum.co".data, "Markets today".data, execSumDoc⟩] =
      some ("chart.png".data) :=
  c2_market_image_amended ("newsletter@execsum.co".data) ("Markets today".data)
    (by decide)

/-- C9, counterexample.  The claim states that with `SEND_TO` missing no
mailbox fetch and no LLM call occurs before the missing-destination error.
With one fetched email the run performs the fetch and the LLM call and
only then fails in `send_email`: both events precede the error. -/
theorem c9_counterexample :
    runTrace [] ("h".data) ("d".data) [] ("## GOOD_MORNING\nhi".data)
        [⟨[], [], HNode.text []⟩] =
      ([RunEv.fetch, RunEv.llm], some RunErr.sendToMissing) ∧
    RunEv.fetch ∈ (runTrace [] ("h".data) ("d".data) []
        ("## GOOD_MORNING\nhi".data) [⟨[], [], HNode.text []⟩]).1 ∧
    RunEv.llm ∈ (runTrace [] ("h".data) ("d".data) []
        ("## GOOD_MORNING\nhi".data) [⟨[], [], HNode.text []⟩]).1 := by
  have h1 : runTrace [] ("h".data) ("d".data) [] ("## GOOD_MORNING\nhi".data)
      [⟨[], [], HNode.text []⟩] =
      ([RunEv.fetch, RunEv.llm], some RunErr.sendToMissing) := by decide
  refine ⟨h1, ?_, ?_⟩ <;> rw [h1] <;> simp

/-- C9, amended.  When `SEND_TO` is missing and the fetch returns at least
one email, the run performs the mailbox fetch and the LLM call and then
raises the missing-destination `ValueError` inside `send_email`, before
any outbound submission: the trace is exactly fetch then LLM-call with the
error, and contains no send event (the failure notification is also
skipped because `SEND_TO` is empty). -/
theorem c9_config_error_amended (headerBg date template llmResponse b : LC)
    (emails : List EmailRec) (h : emails ≠ []) :
    runTrace [] headerBg date template llmResponse emails =
      ([RunEv.fetch, RunEv.llm], some RunErr.sendToMissing) ∧
    RunEv.send b ∉ (runTrace [] headerBg date template llmResponse emails).1 := by
  have h1 : runTrace [] headerBg date template llmResponse emails =
      ([RunEv.fetch, RunEv.llm], some RunErr.sendToMissing) := by
    cases emails with
    | nil => exact absurd rfl h
    | cons e rest => simp [runTrace]
  refine ⟨h1, ?_⟩
  rw [h1]
  intro hb
  rcases List.mem_cons.mp hb with he | hb2
  · exact RunEv.noConfusion he
  · rcases List.mem_cons.mp hb2 with he | hb3
    · exact RunEv.noConfusion he
    · exact List.not_mem_nil _ hb3

/-- C9, witness at a concrete run. -/
theorem c9_config_error_amended_witness :
    runTrace [] ("h".data) ("d".data) [] ("resp".data) [⟨[], [], HNode.text []⟩] =
      ([RunEv.fetch, RunEv.llm], some RunErr.sendToMissing) ∧
    RunEv.send ("doc".data) ∉
      (runTrace [] ("h".data) ("d".data) [] ("resp".data)
        [⟨[], [], HNode.text []⟩]).1 :=
  c9_config_error_amended ("h".data) ("d".data) [] ("resp".data) ("doc".data)
    [⟨[], [], HNode.text []⟩] (List.cons_ne_nil _ _)
